import Mathlib

/-!
Shallow embedding of the resume-screening core (`helpers.py`, `agents.py`)
and proofs about it.

Modelling conventions:
* a Python string is modelled as the list of its Unicode code points
  (`PyStr := List Nat`); the case maps `str.lower` / `str.upper` /
  `str.title` are modelled on the ASCII range, which covers every string
  the program manipulates;
* Python `int` arithmetic is `Nat` arithmetic (all quantities here are
  non-negative);
* the two places the source evaluates IEEE-754 double expressions
  (`int(round((matched_weight / total_weight) * 100))` in
  `compute_domain_match`, and `int((ats * 0.6) + (match * 0.4))` in
  `batch_resume_analysis`) are embedded by an exact emulation of binary64
  arithmetic on scaled naturals (`fpRound`, `pyMatchPercent`,
  `pyCombined` below): every intermediate double is a dyadic rational
  `N / 2^k` and every operation rounds to 53 significant bits with
  ties-to-even, exactly as IEEE-754 prescribes;
* the PDF-extraction collaborator is out of scope (per the spec it hands
  the batch ranker an already-extracted text, empty on failure), so a
  batch entry is a (filename, extracted text) pair.
-/

/-! ## Python string model -/

/-- A Python string, as the list of its Unicode code points. -/
abbrev PyStr := List Nat

/-- Code points of a Lean string literal, used to write down the program's
string constants. -/
def pyEnc (s : String) : PyStr := s.data.map Char.toNat

/-- ASCII model of `str.lower` on one code point. -/
def lowCh (n : Nat) : Nat := if 65 ≤ n ∧ n ≤ 90 then n + 32 else n

/-- ASCII model of `str.upper` on one code point. -/
def upCh (n : Nat) : Nat := if 97 ≤ n ∧ n ≤ 122 then n - 32 else n

/-- ASCII letter test (the "cased character" test driving `str.title`). -/
def alphaCh (n : Nat) : Bool := (65 ≤ n && n ≤ 90) || (97 ≤ n && n ≤ 122)

/-- Model of `str.lower`. -/
def pyLower (s : PyStr) : PyStr := s.map lowCh

/-- Helper for `pyTitle`: `prev` records whether the previous character was
a cased (alphabetic) one. -/
def titleAux : Bool → PyStr → PyStr
  | _, [] => []
  | prev, c :: cs =>
      (if alphaCh c then (if prev then lowCh c else upCh c) else c)
        :: titleAux (alphaCh c) cs

/-- Model of `str.title`: first letter of every alphabetic run upper-cased,
the rest lower-cased. -/
def pyTitle (s : PyStr) : PyStr := titleAux false s

/-- Does `hay` start with `needle`? -/
def startsWithL : PyStr → PyStr → Bool
  | [], _ => true
  | _ :: _, [] => false
  | a :: as, b :: bs => a == b && startsWithL as bs

/-- Model of Python's substring containment `needle in hay`. -/
def pyContains (hay needle : PyStr) : Bool :=
  match hay with
  | [] => startsWithL needle []
  | _ :: t => startsWithL needle hay || pyContains t needle

/-- Whitespace for `str.strip` (ASCII whitespace plus U+00A0). -/
def spaceCh (n : Nat) : Bool :=
  n == 32 || n == 9 || n == 10 || n == 13 || n == 11 || n == 12 || n == 160

/-- Model of `str.strip()`: drop whitespace from both ends. -/
def pyStrip (s : PyStr) : PyStr :=
  List.rdropWhile spaceCh (List.dropWhile spaceCh s)

/-- Model of single-character `str.replace(a, b)`. -/
def replaceCh (a b : Nat) (s : PyStr) : PyStr :=
  s.map fun c => if c = a then b else c

/-- Python's first-seen-order deduplication loop
(`out = []; for s in found: if s not in out: out.append(s)`). -/
def pyDedup (l : List PyStr) : List PyStr :=
  l.foldl (fun out s => if s ∈ out then out else out ++ [s]) []

/-! ## Exact binary64 emulation on scaled naturals -/

/-- Floor of the base-2 logarithm, by fuelled halving (the fuel `130` covers
every number this development ever passes in, all below `2^130`). -/
def lgAux : Nat → Nat → Nat
  | 0, _ => 0
  | fuel + 1, n => if n ≤ 1 then 0 else lgAux fuel (n / 2) + 1

/-- Floor of the base-2 logarithm of a positive natural. -/
def lg (n : Nat) : Nat := lgAux 130 n

/-- Round the rational `a / b` to the nearest natural, ties to even
(the rounding used by IEEE-754 and by Python's `round`). -/
def rdiv (a b : Nat) : Nat :=
  let q := a / b
  let r := a % b
  if 2 * r < b then q
  else if b < 2 * r then q + 1
  else if q % 2 = 0 then q else q + 1

/-- Round the dyadic rational `N / 2^k` to 53 significant bits, ties to
even: the binary64 rounding step.  The value is returned as another
dyadic pair. -/
def fpRound (N k : Nat) : Nat × Nat :=
  if N = 0 then (0, 0)
  else
    let L := lg N
    if L ≤ 52 then (N, k)
    else (rdiv N (2 ^ (L - 52)), k - (L - 52))

/-- Exact significand of the double literal `0.6` (equal to
`5404319552844595 / 2^53`). -/
def sig06 : Nat := 5404319552844595

/-- Exact significand of the double literal `0.4` (equal to
`3602879701896397 / 2^53`). -/
def sig04 : Nat := 3602879701896397

/-- Exact value of the source expression
`int(round((mw / tw) * 100))` under binary64 arithmetic:
correctly-rounded double division, double multiplication by 100, then
Python's `round` (nearest, ties to even). -/
def pyMatchPercent (mw tw : Nat) : Nat :=
  if mw = 0 then 0
  else
    let E := lg (mw * 2 ^ 120 / tw)
    let sh := 172 - E
    let M := rdiv (mw * 2 ^ sh) tw
    let y := fpRound (M * 100) sh
    rdiv y.1 (2 ^ y.2)

/-- Exact value of the source expression
`int((ats * 0.6) + (match * 0.4))` under binary64 arithmetic: two
correctly-rounded double products, a correctly-rounded double sum, then
`int` truncation (floor, as all values are non-negative). -/
def pyCombined (ats mtch : Nat) : Nat :=
  let x := fpRound (ats * sig06) 53
  let y := fpRound (mtch * sig04) 53
  let k := max x.2 y.2
  let s := fpRound (x.1 * 2 ^ (k - x.2) + y.1 * 2 ^ (k - y.2)) k
  s.1 / 2 ^ s.2

/-! ## helpers.py -/

/-- Keyword list of `ats_score`, verbatim from the source (20 entries;
`"sql"` appears twice). -/
def ATS_KEYWORDS : List PyStr :=
  [pyEnc "python", pyEnc "java", pyEnc "machine learning", pyEnc "ai",
   pyEnc "sql", pyEnc "data science", pyEnc "flask", pyEnc "react",
   pyEnc "node.js", pyEnc "cloud", pyEnc "aws", pyEnc "docker",
   pyEnc "communication", pyEnc "leadership", pyEnc "tensorflow",
   pyEnc "pytorch", pyEnc "sql", pyEnc "django", pyEnc "kubernetes",
   pyEnc "terraform"]

/-- Embedding of `helpers.ats_score`: 7 points per keyword hit over the
lower-cased text, capped at 100; 0 on empty text. -/
def ats_score (text : PyStr) : Nat :=
  if text = [] then 0
  else
    min 100
      (ATS_KEYWORDS.foldl
        (fun sc w => if pyContains (pyLower text) (pyLower w) then sc + 7 else sc) 0)

/-- Run-collapsing step of `helpers.clean_text`: emit a pending run of `n`
newlines, replacing it by exactly two when it has length at least 3
(the effect of `re.sub(r'\n{3,}', '\n\n', txt)` on a maximal run). -/
def emitNL (n : Nat) : PyStr := List.replicate (if 3 ≤ n then 2 else n) 10

/-- Helper for `collapseNL`: walks the text accumulating the length of the
current run of newlines. -/
def collapseNLAux : PyStr → Nat → PyStr
  | [], n => emitNL n
  | c :: cs, n =>
      if c = 10 then collapseNLAux cs (n + 1)
      else emitNL n ++ c :: collapseNLAux cs 0

/-- Embedding of `re.sub(r'\n{3,}', '\n\n', txt)`: every maximal run of
three or more newlines becomes exactly two. -/
def collapseNL (s : PyStr) : PyStr := collapseNLAux s 0

/-- Embedding of `helpers.clean_text`: empty in, empty out; otherwise
CR to LF, collapse newline runs, NBSP to space, strip. -/
def clean_text (s : PyStr) : PyStr :=
  if s = [] then []
  else pyStrip (replaceCh 160 32 (collapseNL (replaceCh 13 10 s)))

/-! ## agents.py: domain catalog and matching -/

/-- A catalog requirement as produced by `domain_required_skills`:
`{"skill": ..., "importance": ...}`. -/
structure Req where
  skill : PyStr
  importance : Nat
deriving DecidableEq, Repr

/-- A requirement with the per-skill `score` attached by
`compute_domain_match`. -/
structure ScoredReq where
  skill : PyStr
  importance : Nat
  score : Nat
deriving DecidableEq, Repr

/-- Result record of `compute_domain_match`. -/
structure MatchResult where
  matched : List ScoredReq
  missing : List ScoredReq
  match_percent : Nat
deriving DecidableEq, Repr

/-- The static `DOMAIN_SKILL_MAP` of `agents.py`, verbatim. -/
def DOMAIN_SKILL_MAP : List (String × List (PyStr × Nat)) :=
  [("Data Scientist",
    [(pyEnc "python", 5), (pyEnc "pandas", 5), (pyEnc "numpy", 5),
     (pyEnc "scikit-learn", 5), (pyEnc "machine learning", 5),
     (pyEnc "statistics", 4), (pyEnc "sql", 4), (pyEnc "visualization", 3),
     (pyEnc "spark", 3), (pyEnc "tensorflow", 4)]),
   ("AI/ML Engineer",
    [(pyEnc "python", 5), (pyEnc "deep learning", 5), (pyEnc "pytorch", 5),
     (pyEnc "tensorflow", 5), (pyEnc "computer vision", 4), (pyEnc "nlp", 4),
     (pyEnc "docker", 3), (pyEnc "mlops", 3), (pyEnc "keras", 3),
     (pyEnc "cuda", 2)]),
   ("Frontend Developer",
    [(pyEnc "html", 5), (pyEnc "css", 5), (pyEnc "javascript", 5),
     (pyEnc "react", 5), (pyEnc "typescript", 4), (pyEnc "webpack", 3),
     (pyEnc "vue", 3), (pyEnc "accessibility", 3), (pyEnc "performance", 3),
     (pyEnc "testing", 3)]),
   ("Backend Developer",
    [(pyEnc "python", 5), (pyEnc "django", 5), (pyEnc "flask", 4),
     (pyEnc "node.js", 4), (pyEnc "sql", 4), (pyEnc "rest api", 4),
     (pyEnc "docker", 3), (pyEnc "microservices", 4), (pyEnc "postgresql", 3),
     (pyEnc "redis", 3)]),
   ("Cloud Engineer",
    [(pyEnc "aws", 5), (pyEnc "azure", 5), (pyEnc "gcp", 5),
     (pyEnc "docker", 4), (pyEnc "kubernetes", 4), (pyEnc "terraform", 4),
     (pyEnc "serverless", 3), (pyEnc "monitoring", 3), (pyEnc "ci/cd", 4),
     (pyEnc "security", 3)]),
   ("Software Engineer",
    [(pyEnc "python", 5), (pyEnc "java", 5), (pyEnc "data structures", 5),
     (pyEnc "algorithms", 5), (pyEnc "git", 4), (pyEnc "oop", 4),
     (pyEnc "system design", 4), (pyEnc "microservices", 3),
     (pyEnc "concurrency", 3), (pyEnc "testing", 3)]),
   ("QA Engineer",
    [(pyEnc "testing", 5), (pyEnc "selenium", 4), (pyEnc "pytest", 4),
     (pyEnc "manual testing", 5), (pyEnc "automation", 4),
     (pyEnc "performance testing", 3), (pyEnc "api testing", 3),
     (pyEnc "bug tracking", 3), (pyEnc "rest api", 3), (pyEnc "ci/cd", 3)])]

/-- Embedding of `DOMAIN_SKILL_MAP.get(domain, [])`. -/
def domainGet (domain : String) : List (PyStr × Nat) :=
  match DOMAIN_SKILL_MAP.lookup domain with
  | some l => l
  | none => []

/-- Embedding of `agents.domain_required_skills`: title-cased skill plus
importance, empty list for an unknown domain. -/
def domain_required_skills (domain : String) : List Req :=
  (domainGet domain).map fun p => ⟨pyTitle p.1, p.2⟩

/-- Flattened pool of all catalog skills, in catalog order (the
comprehension `[s for domain in DOMAIN_SKILL_MAP.values() for (s, _) in domain]`). -/
def allCatalogSkills : List PyStr :=
  DOMAIN_SKILL_MAP.flatMap fun d => d.2.map Prod.fst

/-- Pre-deduplication hit list of `detect_skills_simple`: every pool entry
whose lower-cased name occurs in the lower-cased text, title-cased, in
pool order. -/
def detectFound (text : PyStr) (custom_skills : List PyStr) : List PyStr :=
  ((custom_skills ++ allCatalogSkills).filter
      fun s => pyContains (pyLower text) (pyLower s)).map pyTitle

/-- Embedding of `agents.detect_skills_simple`. -/
def detect_skills_simple (text : PyStr) (custom_skills : List PyStr) : List PyStr :=
  if text = [] then []
  else pyDedup (detectFound text custom_skills)

/-- Requirements of `domain` whose (lower-cased) skill name occurs in the
lower-cased `text`: the `matched` partition of `compute_domain_match`. -/
def matchedReqs (text : PyStr) (domain : String) : List Req :=
  (domain_required_skills domain).filter
    fun k => pyContains (pyLower text) (pyLower k.skill)

/-- Requirements of `domain` whose skill name does not occur in the text:
the `missing` partition of `compute_domain_match`. -/
def missingReqs (text : PyStr) (domain : String) : List Req :=
  (domain_required_skills domain).filter
    fun k => !(pyContains (pyLower text) (pyLower k.skill))

/-- The source's `total_weight = sum([k['importance'] for k in req]) or 1`. -/
def totalWeight (domain : String) : Nat :=
  let s := ((domain_required_skills domain).map Req.importance).sum
  if s = 0 then 1 else s

/-- The source's `matched_weight`: summed importance of the matched
requirements. -/
def matchedWeight (text : PyStr) (domain : String) : Nat :=
  ((matchedReqs text domain).map Req.importance).sum

/-- Embedding of `agents.compute_domain_match`. -/
def compute_domain_match (resume_text : PyStr) (domain : String) : MatchResult :=
  { matched :=
      (matchedReqs resume_text domain).map
        fun k => ⟨k.skill, k.importance, min 10 (k.importance * 2)⟩
    missing :=
      (missingReqs resume_text domain).map fun k => ⟨k.skill, k.importance, 0⟩
    match_percent := pyMatchPercent (matchedWeight resume_text domain) (totalWeight domain) }

/-! ## agents.py: interview questions -/

/-- An interview question record; `skill` is absent on the fallback and
closing entries. -/
structure QA where
  q : PyStr
  a : PyStr
  skill : Option PyStr
deriving DecidableEq, Repr

/-- Per-skill question template of
`generate_interview_questions_offline`, selected by difficulty (the
`Basic` / `Hard` branches, everything else taking the `Medium` text). -/
def questionFor (difficulty : String) (skill : PyStr) : QA :=
  if difficulty = "Basic" then
    ⟨pyEnc "Explain " ++ skill ++ pyEnc " and where you'd use it.",
     pyEnc "High-level description and basic use cases of " ++ skill ++ pyEnc ".",
     some skill⟩
  else if difficulty = "Hard" then
    ⟨pyEnc "Design a scalable solution that heavily uses " ++ skill ++
       pyEnc ". Explain trade-offs.",
     pyEnc "Describe architecture, bottlenecks and scaling strategies using " ++
       skill ++ pyEnc ".",
     some skill⟩
  else
    ⟨pyEnc "Describe a project where you used " ++ skill ++
       pyEnc ". What challenges did you solve?",
     pyEnc "Talk about the project, your exact role, and results using " ++
       skill ++ pyEnc ".",
     some skill⟩

/-- The two fixed fallback questions returned on an empty skill list. -/
def fallbackQs : List QA :=
  [⟨pyEnc "Tell me about yourself.",
    pyEnc "Short summary focusing on relevant experience.", none⟩,
   ⟨pyEnc "Why this role?", pyEnc "Explain motivation and fit.", none⟩]

/-- The generic closing question appended after the per-skill loop. -/
def closingQ : QA :=
  ⟨pyEnc "Describe a challenge and how you solved it.",
   pyEnc "Context, action, result.", none⟩

/-- Embedding of `agents.generate_interview_questions_offline`. -/
def generate_interview_questions_offline
    (skills : List PyStr) (max_per_skill : Nat) (difficulty : String) : List QA :=
  if skills = [] then fallbackQs
  else
    (skills.flatMap fun skill =>
      (List.range max_per_skill).map fun _ => questionFor difficulty skill)
      ++ [closingQ]

/-! ## agents.py: improvement suggestions -/

/-- Skill names of `domain` missing from `text`
(`[k['skill'] for k in req if k['skill'].lower() not in text.lower()]`,
where `req` is empty when no truthy domain was supplied). -/
def improveMissing (text : PyStr) (domain : Option String) : List PyStr :=
  let req := match domain with
    | none => []
    | some d => if d = "" then [] else domain_required_skills d
  (req.filter fun k => !(pyContains (pyLower text) (pyLower k.skill))).map Req.skill

/-- Truthiness of the `domain` argument combined with catalog lookup:
the source's `req` list in `generate_improvements`. -/
def improveReq (domain : Option String) : List Req :=
  match domain with
  | none => []
  | some d => if d = "" then [] else domain_required_skills d

/-- The single generic Skill-Highlighting suggestion used when the
requirement list is empty. -/
def genericSkillSuggestion : PyStr :=
  pyEnc "Use metrics (%, numbers, time saved) to quantify your skill impact."

/-- Per-missing-skill Skill-Highlighting suggestion template. -/
def skillSuggestion (s : PyStr) : PyStr :=
  pyEnc "Show a short bullet linking a project to " ++ s ++
    pyEnc " and a measurable outcome."

/-- Embedding of `agents.generate_improvements` as an ordered
key/value list (Python dicts preserve insertion order; the five keys are
distinct).  Only the conditional inclusion of each area and the
Skill-Highlighting contents matter to the claims; the other four areas
carry their fixed template strings. -/
def generate_improvements
    (resume_text : PyStr) (selected_areas : List PyStr) (domain : Option String) :
    List (PyStr × List PyStr) :=
  let missing := improveMissing resume_text domain
  let sel := selected_areas.map pyStrip
  let want := fun (a : PyStr) => sel = [] || sel.contains a
  (if want (pyEnc "Skill Highlighting") then
    [(pyEnc "Skill Highlighting",
      if improveReq domain ≠ [] then (missing.take 8).map skillSuggestion
      else [genericSkillSuggestion])]
   else []) ++
  (if want (pyEnc "Experience Description") then
    [(pyEnc "Experience Description",
      [pyEnc "Start bullets with action verbs (Designed, Implemented, Led).",
       pyEnc "Prefer 2-3 bullets per role showing problem → action → result with numbers."])]
   else []) ++
  (if want (pyEnc "Projects") then
    [(pyEnc "Projects",
      [pyEnc "Add 2–4 projects: title, tech stack, role, clear measurable result (e.g., improved X by Y%).",
       pyEnc "Include links (GitHub) or short screenshots if available."])]
   else []) ++
  (if want (pyEnc "Overall structure") then
    [(pyEnc "Overall structure",
      [pyEnc "Use reverse-chronological order, consistent date format and clear headings.",
       pyEnc "Keep resume ≤ 2 pages for mid/senior roles; 1 page for entry-level where possible."])]
   else []) ++
  (if want (pyEnc "Certifications") then
    [(pyEnc "Certifications",
      [pyEnc "Add relevant certifications (AWS/GCP, ML courses, Frontend certs) if you have them."])]
   else [])

/-! ## agents.py: batch analysis -/

/-- One output record of `batch_resume_analysis`. -/
structure AnalysisRecord where
  filename : String
  ats_score : Nat
  match_percent : Nat
  combined_score : Nat
deriving DecidableEq, Repr

/-- The per-entry record built inside the batch loop.  An entry is a
(filename, extracted text) pair: the PDF-extraction collaborator is out
of scope and per the spec hands back the text, empty on failure. -/
def analyzeEntry (domain : String) (e : String × PyStr) : AnalysisRecord :=
  let ats := ats_score e.2
  let mtch := (compute_domain_match e.2 domain).match_percent
  ⟨e.1, ats, mtch, pyCombined ats mtch⟩

/-- Descending comparison on `combined_score` used by the final
`sorted(..., key=lambda x: x["combined_score"], reverse=True)`. -/
def byCombinedDesc (a b : AnalysisRecord) : Bool :=
  b.combined_score ≤ a.combined_score

/-- Embedding of `agents.batch_resume_analysis`: score every entry in
order, then stable-sort by combined score, descending (Python's `sorted`
is stable; `List.mergeSort` is the stable sort on lists). -/
def batch_resume_analysis
    (resume_files : List (String × PyStr)) (domain : String) : List AnalysisRecord :=
  (resume_files.map (analyzeEntry domain)).mergeSort byCombinedDesc

/-! ## Auxiliary definitions used by the theorem statements -/

/-- First-seen-order deduplication, stated structurally: keep the first
occurrence of every element, in order of first occurrence.  Used to
characterise the dedup loop of `detect_skills_simple`. -/
def firstSeen : List PyStr → List PyStr
  | [] => []
  | x :: xs => x :: firstSeen (xs.filter fun y => y ≠ x)
termination_by l => l.length
decreasing_by
  simp only [List.length_cons]
  exact Nat.lt_succ_of_le (List.length_filter_le _ _)

/-- Does the text contain three consecutive newlines?  (What
`re.sub(r'\n{3,}', ...)` looks for.) -/
def hasTriple : PyStr → Bool
  | a :: b :: c :: rest => (a == 10 && b == 10 && c == 10) || hasTriple (b :: c :: rest)
  | _ => false

/-- Round `a / b` to the nearest natural, ties upward (the
"round-half-up" candidate rule named by the spec). -/
def rdivUp (a b : Nat) : Nat :=
  if 2 * (a % b) < b then a / b else a / b + 1

/-- Number of `ats_score` keyword hits in a text (list positions of
`ATS_KEYWORDS` whose entry occurs in the lower-cased text). -/
def atsHitCount (text : PyStr) : Nat :=
  (ATS_KEYWORDS.filter fun w => pyContains (pyLower text) (pyLower w)).length

/-! ## Theorems -/

/-- Evaluation of the `ats_score` accumulator loop: starting from `s`, the
fold adds 7 for every keyword hit. -/
theorem ats_foldl_eq (text : PyStr) :
    ∀ (l : List PyStr) (s : Nat),
      (l.foldl (fun sc w => if pyContains (pyLower text) (pyLower w) then sc + 7 else sc) s)
        = s + 7 * (l.filter fun w => pyContains (pyLower text) (pyLower w)).length := by
  intro l
  induction l with
  | nil => intro s; simp
  | cons w ws ih =>
      intro s
      by_cases h : pyContains (pyLower text) (pyLower w)
      · simp only [List.foldl_cons, List.filter_cons, h]
        simp only [if_pos trivial, ih, List.length_cons]
        omega
      · simp only [List.foldl_cons, List.filter_cons, h]
        simp [ih]

/-- Closed form of `ats_score`: the cap of 7 points per hit. -/
theorem ats_score_eq_min (text : PyStr) :
    ats_score text = min 100 (7 * atsHitCount text) := by
  by_cases h : text = []
  · subst h
    simp [ats_score]
    decide
  · unfold ats_score atsHitCount
    rw [if_neg h, ats_foldl_eq]
    simp

/-- C4: `ats_score` equals 7 points per keyword-list hit (case-insensitive
substring matches over the fixed list, which has 20 entries, `"sql"`
appearing twice), cumulative and capped at 100; it never exceeds 100, and
empty text scores 0. -/
theorem ats_score_spec (text : PyStr) :
    ats_score text = min 100 (7 * atsHitCount text) ∧
    ats_score text ≤ 100 ∧
    (text = [] → ats_score text = 0) := by
  refine ⟨ats_score_eq_min text, ?_, fun h => by simp [ats_score, h]⟩
  rw [ats_score_eq_min text]
  exact Nat.min_le_left _ _

/-- Witness for C4 at the empty text. -/
theorem ats_score_spec_witness : ats_score [] = 0 :=
  (ats_score_spec []).2.2 rfl

/-- C7: a domain name outside the catalog yields an empty requirement
list, a total weight defaulted to 1, and a `MatchResult` with empty
matched and missing lists and `match_percent = 0`, for every text. -/
theorem unknown_domain_spec (domain : String)
    (h : DOMAIN_SKILL_MAP.lookup domain = none) :
    domain_required_skills domain = [] ∧
    totalWeight domain = 1 ∧
    ∀ text, compute_domain_match text domain = ⟨[], [], 0⟩ := by
  have hg : domainGet domain = [] := by unfold domainGet; rw [h]
  have hreq : domain_required_skills domain = [] := by
    unfold domain_required_skills; rw [hg]; rfl
  have htw : totalWeight domain = 1 := by unfold totalWeight; rw [hreq]; rfl
  refine ⟨hreq, htw, fun text => ?_⟩
  have hm : matchedReqs text domain = [] := by unfold matchedReqs; rw [hreq]; rfl
  have hmiss : missingReqs text domain = [] := by unfold missingReqs; rw [hreq]; rfl
  unfold compute_domain_match matchedWeight
  rw [hm, hmiss, htw]
  rfl

/-- Witness for C7 at the unknown domain "Astronaut". -/
theorem unknown_domain_spec_witness :
    compute_domain_match (pyEnc "any resume text") "Astronaut" = ⟨[], [], 0⟩ :=
  (unknown_domain_spec "Astronaut" (by decide)).2.2 _

/-- C6: the interview-question generator returns exactly the fixed 2-entry
fallback on an empty skill list (for every `max_per_skill` and
difficulty); on a nonempty list it emits `max_per_skill` questions per
skill, grouped by skill in input order, with the one generic closing
question appended, so the length is `skills.length * max_per_skill + 1`;
an unrecognized difficulty uses the Medium template; and
`generate_interview_questions_offline(["Python"], 2, "Hard")` is exactly
the two Hard-template questions followed by the closing question. -/
theorem generate_questions_spec (skills : List PyStr) (mps : Nat) (difficulty : String) :
    (skills = [] →
      generate_interview_questions_offline skills mps difficulty = fallbackQs ∧
      fallbackQs.length = 2) ∧
    (skills ≠ [] →
      generate_interview_questions_offline skills mps difficulty =
        (skills.flatMap fun sk => List.replicate mps (questionFor difficulty sk)) ++
          [closingQ] ∧
      (generate_interview_questions_offline skills mps difficulty).length =
        skills.length * mps + 1) ∧
    (difficulty ≠ "Basic" → difficulty ≠ "Hard" →
      generate_interview_questions_offline skills mps difficulty =
        generate_interview_questions_offline skills mps "Medium") ∧
    generate_interview_questions_offline [pyEnc "Python"] 2 "Hard" =
      [⟨pyEnc "Design a scalable solution that heavily uses Python. Explain trade-offs.",
        pyEnc "Describe architecture, bottlenecks and scaling strategies using Python.",
        some (pyEnc "Python")⟩,
       ⟨pyEnc "Design a scalable solution that heavily uses Python. Explain trade-offs.",
        pyEnc "Describe architecture, bottlenecks and scaling strategies using Python.",
        some (pyEnc "Python")⟩,
       ⟨pyEnc "Describe a challenge and how you solved it.",
        pyEnc "Context, action, result.", none⟩] := by
  have hrep : (fun sk => (List.range mps).map fun _ => questionFor difficulty sk)
      = fun sk => List.replicate mps (questionFor difficulty sk) := by
    funext sk
    rw [List.map_const', List.length_range]
  refine ⟨fun h => ?_, fun h => ?_, fun h1 h2 => ?_, by decide⟩
  · subst h; exact ⟨rfl, rfl⟩
  · have hform :
        generate_interview_questions_offline skills mps difficulty =
          (skills.flatMap fun sk => List.replicate mps (questionFor difficulty sk)) ++
            [closingQ] := by
      unfold generate_interview_questions_offline
      rw [if_neg h, hrep]
    refine ⟨hform, ?_⟩
    have hlen :
        (List.map (List.length ∘ fun sk => List.replicate mps (questionFor difficulty sk))
          skills).sum = skills.length * mps := by
      rw [show (List.length ∘ fun sk => List.replicate mps (questionFor difficulty sk))
            = fun _ => mps from funext fun sk => by simp]
      rw [List.map_const', List.sum_replicate, smul_eq_mul]
    rw [hform, List.length_append, List.length_flatMap, hlen]
    rfl
  · have hq : ∀ sk, questionFor difficulty sk = questionFor "Medium" sk := by
      intro sk
      unfold questionFor
      rw [if_neg h1, if_neg h2, if_neg (by decide : ¬("Medium" = "Basic")),
        if_neg (by decide : ¬("Medium" = "Hard"))]
    simp only [generate_interview_questions_offline, hq]

/-- Witness for C6 at `["Python"], 2, "Hard"`: three questions. -/
theorem generate_questions_spec_witness :
    (generate_interview_questions_offline [pyEnc "Python"] 2 "Hard").length =
      ([pyEnc "Python"] : List PyStr).length * 2 + 1 :=
  ((generate_questions_spec [pyEnc "Python"] 2 "Hard").2.1 (by decide)).2

/-- The empty text contains no nonempty needle. -/
theorem pyContains_nil {needle : PyStr} (h : needle ≠ []) :
    pyContains [] needle = false := by
  cases needle with
  | nil => exact absurd rfl h
  | cons c cs => rfl

/-- Summed importance of a filtered requirement list is at most that of
the whole list. -/
theorem sum_filter_le (p : Req → Bool) (l : List Req) :
    ((l.filter p).map Req.importance).sum ≤ (l.map Req.importance).sum := by
  induction l with
  | nil => simp
  | cons a t ih =>
      by_cases h : p a
      · simp only [List.filter_cons, h, if_pos trivial, List.map_cons, List.sum_cons]
        omega
      · simp only [List.filter_cons, h, List.map_cons, List.sum_cons]
        simp only [Bool.false_eq_true, if_false]
        omega

/-- A filter and its complement split the importance sum. -/
theorem sum_filter_partition (p : Req → Bool) (l : List Req) :
    ((l.filter p).map Req.importance).sum +
      ((l.filter fun k => !p k).map Req.importance).sum =
      (l.map Req.importance).sum := by
  induction l with
  | nil => simp
  | cons a t ih =>
      by_cases h : p a <;>
        simp only [List.filter_cons, h, Bool.not_true, Bool.not_false, if_pos,
          Bool.false_eq_true, if_false, List.map_cons, List.sum_cons] <;>
        omega

/-- Catalog shape of the total weight: an unknown (or requirement-less)
domain has an empty requirement list and defaulted total 1; each of the
seven catalog domains has a nonempty list whose importance sum is the
total weight, one of 37, 39, 40, 41, 43, with every skill name nonempty. -/
theorem catalog_weights (domain : String) :
    (domain_required_skills domain = [] ∧ totalWeight domain = 1) ∨
    (((domain_required_skills domain).map Req.importance).sum = totalWeight domain ∧
      totalWeight domain ∈ ([37, 39, 40, 41, 43] : List Nat) ∧
      ∀ k ∈ domain_required_skills domain, pyLower k.skill ≠ []) := by
  by_cases h1 : domain = "Data Scientist"
  · subst h1; right; decide
  by_cases h2 : domain = "AI/ML Engineer"
  · subst h2; right; decide
  by_cases h3 : domain = "Frontend Developer"
  · subst h3; right; decide
  by_cases h4 : domain = "Backend Developer"
  · subst h4; right; decide
  by_cases h5 : domain = "Cloud Engineer"
  · subst h5; right; decide
  by_cases h6 : domain = "Software Engineer"
  · subst h6; right; decide
  by_cases h7 : domain = "QA Engineer"
  · subst h7; right; decide
  left
  have b1 : (domain == "Data Scientist") = false := by simp [h1]
  have b2 : (domain == "AI/ML Engineer") = false := by simp [h2]
  have b3 : (domain == "Frontend Developer") = false := by simp [h3]
  have b4 : (domain == "Backend Developer") = false := by simp [h4]
  have b5 : (domain == "Cloud Engineer") = false := by simp [h5]
  have b6 : (domain == "Software Engineer") = false := by simp [h6]
  have b7 : (domain == "QA Engineer") = false := by simp [h7]
  have hnone : DOMAIN_SKILL_MAP.lookup domain = none := by
    simp only [DOMAIN_SKILL_MAP, List.lookup, b1, b2, b3, b4, b5, b6, b7]
  have hg : domainGet domain = [] := by unfold domainGet; rw [hnone]
  have hreq : domain_required_skills domain = [] := by
    unfold domain_required_skills; rw [hg]; rfl
  exact ⟨hreq, by unfold totalWeight; rw [hreq]; rfl⟩

/-- The total weight always lies in the reachable set. -/
theorem totalWeight_mem (domain : String) :
    totalWeight domain ∈ ([1, 37, 39, 40, 41, 43] : List Nat) := by
  rcases catalog_weights domain with ⟨_, h⟩ | ⟨_, h, _⟩
  · rw [h]; simp
  · simp only [List.mem_cons, List.mem_singleton] at h ⊢
    tauto

/-- Matched weight never exceeds the total weight. -/
theorem matched_le_total (text : PyStr) (domain : String) :
    matchedWeight text domain ≤ totalWeight domain := by
  have hle : matchedWeight text domain ≤
      ((domain_required_skills domain).map Req.importance).sum :=
    sum_filter_le _ _
  rcases catalog_weights domain with ⟨hreq, htw⟩ | ⟨hsum, _, _⟩
  · rw [htw]
    unfold matchedWeight matchedReqs at hle ⊢
    rw [hreq] at hle ⊢
    simp
  · rw [← hsum]; exact hle

set_option maxRecDepth 40000 in
set_option maxHeartbeats 2000000 in
/-- Exhaustive facts about `pyMatchPercent` on the reachable weights: it
is at most 100, it is a nearest-integer rounding of `100 * mw / tw`
(within one half, expressed multiplicatively), and it is exactly 100 on a
full match. -/
theorem pyMatchPercent_table :
    ∀ tw ∈ ([1, 37, 39, 40, 41, 43] : List Nat), ∀ mw, mw ≤ tw →
      (pyMatchPercent mw tw ≤ 100 ∧
       2 * pyMatchPercent mw tw * tw ≤ 200 * mw + tw ∧
       200 * mw ≤ (2 * pyMatchPercent mw tw + 1) * tw ∧
       (mw = tw → pyMatchPercent mw tw = 100)) := by decide

/-- Shared bounds on the match percent of any `compute_domain_match`
result. -/
theorem percent_facts (text : PyStr) (domain : String) :
    (compute_domain_match text domain).match_percent ≤ 100 ∧
    2 * (compute_domain_match text domain).match_percent * totalWeight domain ≤
      200 * matchedWeight text domain + totalWeight domain ∧
    200 * matchedWeight text domain ≤
      (2 * (compute_domain_match text domain).match_percent + 1) * totalWeight domain := by
  have h := pyMatchPercent_table (totalWeight domain) (totalWeight_mem domain)
    (matchedWeight text domain) (matched_le_total text domain)
  exact ⟨h.1, h.2.1, h.2.2.1⟩

set_option maxRecDepth 80000 in
set_option maxHeartbeats 4000000 in
/-- Exhaustive facts about `pyCombined` on the reachable scores (an ATS
score is `min 100 (7 * k)` for some hit count `k ≤ 20`, a match percent
is at most 100): the combined score is at most 100 and is the floor of
the exact blend `(3*ats + 2*match) / 5` up to the one-unit float dip. -/
theorem pyCombined_table :
    ∀ k, k ≤ 20 → ∀ m, m ≤ 100 →
      (pyCombined (min 100 (7 * k)) m ≤ 100 ∧
       pyCombined (min 100 (7 * k)) m ≤ (3 * min 100 (7 * k) + 2 * m) / 5 ∧
       (3 * min 100 (7 * k) + 2 * m) / 5 ≤ pyCombined (min 100 (7 * k)) m + 1) := by
  decide

set_option maxRecDepth 40000 in
set_option maxHeartbeats 2000000 in
/-- C1 counterexample: on the Cloud Engineer domain the text
"aws azure gcp docker kubernetes" matches weight 23 of 40, whose exact
percentage is 57.5; both consistent rounding rules the spec allows
(half-to-even, `rdiv`, and half-up, `rdivUp`) give 58, but the program's
binary64 evaluation yields 57 (the double product dips just below the
tie).  Moreover for a domain with no requirements every text vacuously
contains all required skills, yet the percent is 0, not 100. -/
theorem match_percent_cex :
    matchedWeight (pyEnc "aws azure gcp docker kubernetes") "Cloud Engineer" = 23 ∧
    totalWeight "Cloud Engineer" = 40 ∧
    (compute_domain_match (pyEnc "aws azure gcp docker kubernetes")
        "Cloud Engineer").match_percent = 57 ∧
    rdiv (100 * 23) 40 = 58 ∧
    rdivUp (100 * 23) 40 = 58 ∧
    domain_required_skills "Astronaut" = [] ∧
    (compute_domain_match (pyEnc "essay") "Astronaut").match_percent = 0 := by
  decide

/-- C1 (amended): `match_percent` is the binary64 evaluation of
`int(round(100 * matchedWeight / totalWeight))`, which rounds to a
nearest integer (within one half of the exact ratio, stated
multiplicatively below) but does not follow a single half-even or
half-up tie rule; it is always at most 100, it is 0 on empty text, and it
is 100 when the domain has a nonempty requirement list all of whose
skills occur (case-insensitively) in the text. -/
theorem match_percent_amended (text : PyStr) (domain : String) :
    (compute_domain_match text domain).match_percent ≤ 100 ∧
    2 * (compute_domain_match text domain).match_percent * totalWeight domain ≤
      200 * matchedWeight text domain + totalWeight domain ∧
    200 * matchedWeight text domain ≤
      (2 * (compute_domain_match text domain).match_percent + 1) * totalWeight domain ∧
    (text = [] → (compute_domain_match text domain).match_percent = 0) ∧
    (domain_required_skills domain ≠ [] →
      (∀ k ∈ domain_required_skills domain, pyContains (pyLower text) (pyLower k.skill)) →
      (compute_domain_match text domain).match_percent = 100) := by
  obtain ⟨hb1, hb2, hb3⟩ := percent_facts text domain
  refine ⟨hb1, hb2, hb3, fun hempty => ?_, fun hne hall => ?_⟩
  · subst hempty
    have hmw : matchedWeight [] domain = 0 := by
      unfold matchedWeight matchedReqs
      rcases catalog_weights domain with ⟨hreq, _⟩ | ⟨_, _, hskills⟩
      · rw [hreq]; rfl
      · rw [List.filter_eq_nil_iff.mpr ?all]
        · rfl
        · intro k hk
          have : pyLower [] = ([] : PyStr) := rfl
          rw [this, pyContains_nil (hskills k hk)]
          simp
    show pyMatchPercent (matchedWeight [] domain) (totalWeight domain) = 0
    rw [hmw]
    rfl
  · have hfull : matchedReqs text domain = domain_required_skills domain := by
      unfold matchedReqs
      exact List.filter_eq_self.mpr fun k hk => hall k hk
    have hmw : matchedWeight text domain =
        ((domain_required_skills domain).map Req.importance).sum := by
      unfold matchedWeight
      rw [hfull]
    rcases catalog_weights domain with ⟨hreq, _⟩ | ⟨hsum, hmem, _⟩
    · exact absurd hreq hne
    · have heq : matchedWeight text domain = totalWeight domain := by rw [hmw, hsum]
      have h := pyMatchPercent_table (totalWeight domain)
        (totalWeight_mem domain) (matchedWeight text domain) (le_of_eq heq)
      exact h.2.2.2 heq

/-- Witness for C1 (amended) at the empty text on a catalog domain. -/
theorem match_percent_amended_witness :
    (compute_domain_match [] "Data Scientist").match_percent = 0 :=
  (match_percent_amended [] "Data Scientist").2.2.2.1 rfl

/-- C2 counterexample: for an unknown domain the matched and missing
importance sums are both 0 while the algorithm's `total_weight`
(`sum(...) or 1`) is 1, so their sum does not equal `totalWeight`. -/
theorem partition_cex :
    ¬(((compute_domain_match (pyEnc "x") "Astronaut").matched.map
          ScoredReq.importance).sum +
        ((compute_domain_match (pyEnc "x") "Astronaut").missing.map
          ScoredReq.importance).sum =
        totalWeight "Astronaut") := by
  decide

/-- C2 (amended): `compute_domain_match` partitions the domain's full
requirement list: matched plus missing importance sums equal the sum over
the full requirement list (which equals the algorithm's `total_weight`
whenever the requirement list is nonempty, the defaulted value 1
differing only on requirement-less domains); the matched and missing
skill-name sets are disjoint and their union is exactly the requirement
names; every matched entry scores `min 10 (importance * 2)` and every
missing entry scores 0. -/
theorem partition_amended (text : PyStr) (domain : String) :
    (((compute_domain_match text domain).matched.map ScoredReq.importance).sum +
      ((compute_domain_match text domain).missing.map ScoredReq.importance).sum =
      ((domain_required_skills domain).map Req.importance).sum) ∧
    (domain_required_skills domain ≠ [] →
      ((compute_domain_match text domain).matched.map ScoredReq.importance).sum +
        ((compute_domain_match text domain).missing.map ScoredReq.importance).sum =
        totalWeight domain) ∧
    (∀ n : PyStr,
      ¬(n ∈ (compute_domain_match text domain).matched.map ScoredReq.skill ∧
        n ∈ (compute_domain_match text domain).missing.map ScoredReq.skill)) ∧
    (∀ n : PyStr,
      (n ∈ (compute_domain_match text domain).matched.map ScoredReq.skill ∨
        n ∈ (compute_domain_match text domain).missing.map ScoredReq.skill) ↔
      n ∈ (domain_required_skills domain).map Req.skill) ∧
    (∀ m ∈ (compute_domain_match text domain).matched,
      m.score = min 10 (m.importance * 2)) ∧
    (∀ m ∈ (compute_domain_match text domain).missing, m.score = 0) := by
  have hsum :
      ((compute_domain_match text domain).matched.map ScoredReq.importance).sum +
        ((compute_domain_match text domain).missing.map ScoredReq.importance).sum =
        ((domain_required_skills domain).map Req.importance).sum := by
    simp only [compute_domain_match, matchedReqs, missingReqs, List.map_map]
    have h1 : (ScoredReq.importance ∘ fun k : Req =>
        (⟨k.skill, k.importance, min 10 (k.importance * 2)⟩ : ScoredReq)) =
        Req.importance := by
      funext k; rfl
    have h2 : (ScoredReq.importance ∘ fun k : Req =>
        (⟨k.skill, k.importance, 0⟩ : ScoredReq)) = Req.importance := by
      funext k; rfl
    rw [h1, h2]
    exact sum_filter_partition _ _
  refine ⟨hsum, fun hne => ?_, fun n ⟨hmat, hmiss⟩ => ?_, fun n => ?_, ?_, ?_⟩
  · rcases catalog_weights domain with ⟨hreq, _⟩ | ⟨htot, _, _⟩
    · exact absurd hreq hne
    · rw [hsum, htot]
  · simp only [compute_domain_match, matchedReqs, missingReqs, List.map_map,
      List.mem_map, Function.comp] at hmat hmiss
    obtain ⟨k1, hk1, hk1n⟩ := hmat
    obtain ⟨k2, hk2, hk2n⟩ := hmiss
    rw [List.mem_filter] at hk1 hk2
    have : pyContains (pyLower text) (pyLower k1.skill) =
        pyContains (pyLower text) (pyLower k2.skill) := by
      rw [show k1.skill = k2.skill from hk1n.trans hk2n.symm]
    rw [hk1.2] at this
    have h2 := hk2.2
    simp only [Bool.not_eq_true'] at h2
    rw [h2] at this
    cases this
  · constructor
    · rintro (hmat | hmiss)
      · simp only [compute_domain_match, matchedReqs, missingReqs, List.map_map,
          List.mem_map, Function.comp] at hmat ⊢
        obtain ⟨k, hk, hkn⟩ := hmat
        exact ⟨k, (List.mem_filter.mp hk).1, hkn⟩
      · simp only [compute_domain_match, matchedReqs, missingReqs, List.map_map,
          List.mem_map, Function.comp] at hmiss ⊢
        obtain ⟨k, hk, hkn⟩ := hmiss
        exact ⟨k, (List.mem_filter.mp hk).1, hkn⟩
    · intro hreq
      simp only [List.mem_map] at hreq
      obtain ⟨k, hk, hkn⟩ := hreq
      by_cases hp : pyContains (pyLower text) (pyLower k.skill)
      · left
        simp only [compute_domain_match, matchedReqs, List.map_map, List.mem_map,
          Function.comp]
        exact ⟨k, List.mem_filter.mpr ⟨hk, hp⟩, hkn⟩
      · right
        simp only [compute_domain_match, missingReqs, List.map_map, List.mem_map,
          Function.comp]
        refine ⟨k, List.mem_filter.mpr ⟨hk, ?_⟩, hkn⟩
        simp [hp]
  · intro m hm
    simp only [compute_domain_match, List.mem_map] at hm
    obtain ⟨k, _, hkm⟩ := hm
    rw [← hkm]
  · intro m hm
    simp only [compute_domain_match, List.mem_map] at hm
    obtain ⟨k, _, hkm⟩ := hm
    rw [← hkm]

/-- Witness for C2 (amended) on a catalog domain. -/
theorem partition_amended_witness :
    ((compute_domain_match (pyEnc "python and sql") "Data Scientist").matched.map
        ScoredReq.importance).sum +
      ((compute_domain_match (pyEnc "python and sql") "Data Scientist").missing.map
        ScoredReq.importance).sum =
      totalWeight "Data Scientist" :=
  (partition_amended (pyEnc "python and sql") "Data Scientist").2.1 (by decide)

set_option maxRecDepth 40000 in
set_option maxHeartbeats 2000000 in
/-- C3 counterexample: the batch entry whose text scores ats = 77 and
match = 7 gets `combined_score = 48`, although the exact blend
`77*0.6 + 7*0.4` is exactly the integer 49 (`3*77 + 2*7 = 5*49`), so
every nearest-integer rounding gives 49: the source truncates the
binary64 sum 48.99999999999999 with `int(...)`, it does not round. -/
theorem combined_score_cex :
    batch_resume_analysis
      [("r", pyEnc "java flask react node.js cloud aws docker communication leadership django kubernetes visualization")]
      "Data Scientist" =
      [⟨"r", 77, 7, 48⟩] ∧
    3 * 77 + 2 * 7 = 5 * 49 := by
  constructor
  · have h : List.map (analyzeEntry "Data Scientist")
        [("r", pyEnc "java flask react node.js cloud aws docker communication leadership django kubernetes visualization")] =
        [⟨"r", 77, 7, 48⟩] := by decide
    unfold batch_resume_analysis
    rw [h, List.mergeSort_singleton]
  · decide

/-- C3 (amended): every record produced by the batch ranker carries
`combined_score = int(ats*0.6 + match*0.4)` evaluated in binary64 —
a truncation, not a rounding — which equals the floor of the exact blend
`(3*ats + 2*match) / 5` except where the float sum dips just below an
integer (then it is one less); it is always an integer in 0..100. -/
theorem combined_score_amended (entries : List (String × PyStr)) (domain : String) :
    ∀ r ∈ batch_resume_analysis entries domain,
      r.combined_score = pyCombined r.ats_score r.match_percent ∧
      r.combined_score ≤ 100 ∧
      r.combined_score ≤ (3 * r.ats_score + 2 * r.match_percent) / 5 ∧
      (3 * r.ats_score + 2 * r.match_percent) / 5 ≤ r.combined_score + 1 := by
  intro r hr
  rw [batch_resume_analysis, List.mem_mergeSort, List.mem_map] at hr
  obtain ⟨e, _, he⟩ := hr
  subst he
  have hk : atsHitCount e.2 ≤ 20 := List.length_filter_le _ _
  have ha : ats_score e.2 = min 100 (7 * atsHitCount e.2) := ats_score_eq_min e.2
  have hm : (compute_domain_match e.2 domain).match_percent ≤ 100 :=
    (percent_facts e.2 domain).1
  have htab := pyCombined_table (atsHitCount e.2) hk
    ((compute_domain_match e.2 domain).match_percent) hm
  refine ⟨rfl, ?_, ?_, ?_⟩
  · show pyCombined (ats_score e.2) (compute_domain_match e.2 domain).match_percent ≤ 100
    rw [ha]; exact htab.1
  · show pyCombined (ats_score e.2) (compute_domain_match e.2 domain).match_percent ≤
      (3 * ats_score e.2 + 2 * (compute_domain_match e.2 domain).match_percent) / 5
    rw [ha]; exact htab.2.1
  · show (3 * ats_score e.2 + 2 * (compute_domain_match e.2 domain).match_percent) / 5 ≤
      pyCombined (ats_score e.2) (compute_domain_match e.2 domain).match_percent + 1
    rw [ha]; exact htab.2.2

/-- Witness for C3 (amended) on a one-entry batch. -/
theorem combined_score_amended_witness :
    (⟨"a", 0, 0, 0⟩ : AnalysisRecord).combined_score ≤ 100 :=
  (combined_score_amended [("a", [])] "Data Scientist" ⟨"a", 0, 0, 0⟩
    (by rw [batch_resume_analysis, List.mem_mergeSort]; decide)).2.1

/-- The batch comparison is transitive. -/
theorem byCombinedDesc_trans : ∀ a b c : AnalysisRecord,
    byCombinedDesc a b → byCombinedDesc b c → byCombinedDesc a c := by
  intro a b c hab hbc
  simp only [byCombinedDesc, decide_eq_true_eq] at hab hbc ⊢
  omega

/-- The batch comparison is total. -/
theorem byCombinedDesc_total : ∀ a b : AnalysisRecord,
    byCombinedDesc a b || byCombinedDesc b a := by
  intro a b
  simp only [byCombinedDesc, Bool.or_eq_true, decide_eq_true_eq]
  omega

/-- C5: the batch output is sorted by `combined_score` descending
(pairwise), and the sort is stable: for every score value `c`, the
records with that combined score appear in exactly their original input
order (the filtered subsequences of output and of the in-order scored
records coincide). -/
theorem batch_sorted_stable (entries : List (String × PyStr)) (domain : String) :
    List.Pairwise (fun a b => b.combined_score ≤ a.combined_score)
      (batch_resume_analysis entries domain) ∧
    ∀ c : Nat,
      (batch_resume_analysis entries domain).filter
          (fun r => r.combined_score == c) =
        (entries.map (analyzeEntry domain)).filter
          (fun r => r.combined_score == c) := by
  constructor
  · rw [batch_resume_analysis]
    refine List.Pairwise.imp ?_
      (List.sorted_mergeSort byCombinedDesc_trans byCombinedDesc_total
        (entries.map (analyzeEntry domain)))
    intro a b hab
    simpa [byCombinedDesc] using hab
  · intro c
    rw [batch_resume_analysis]
    have hall : ∀ r ∈ (entries.map (analyzeEntry domain)).filter
        (fun r => r.combined_score == c), r.combined_score = c := by
      intro r hr
      have h := (List.mem_filter.mp hr).2
      simpa using h
    have hpw : ((entries.map (analyzeEntry domain)).filter
        (fun r => r.combined_score == c)).Pairwise
          (fun a b => byCombinedDesc a b = true) := by
      refine List.pairwise_of_forall_mem_list fun a ha b hb => ?_
      have h1 := hall a ha
      have h2 := hall b hb
      simp only [byCombinedDesc, decide_eq_true_eq]
      omega
    have hsub := List.sublist_mergeSort byCombinedDesc_trans byCombinedDesc_total
      hpw (List.filter_sublist (entries.map (analyzeEntry domain)))
    have hperm : List.Perm
        ((entries.map (analyzeEntry domain)).mergeSort byCombinedDesc)
        (entries.map (analyzeEntry domain)) := List.mergeSort_perm _ _
    have hfperm := hperm.filter (fun r => r.combined_score == c)
    have hsf : ((entries.map (analyzeEntry domain)).filter
          (fun r => r.combined_score == c)).filter (fun r => r.combined_score == c) =
        (entries.map (analyzeEntry domain)).filter (fun r => r.combined_score == c) :=
      List.filter_eq_self.mpr fun r hr => (List.mem_filter.mp hr).2
    have hsub2 : List.Sublist
        ((entries.map (analyzeEntry domain)).filter (fun r => r.combined_score == c))
        (((entries.map (analyzeEntry domain)).mergeSort byCombinedDesc).filter
          (fun r => r.combined_score == c)) := by
      have h := hsub.filter (fun r => r.combined_score == c)
      rwa [hsf] at h
    exact (hsub2.eq_of_length (by rw [hfperm.length_eq])).symm

/-- Lower-casing an upper-cased code point gives its lower case. -/
theorem lowCh_upCh (n : Nat) : lowCh (upCh n) = lowCh n := by
  unfold lowCh upCh
  split_ifs <;> omega

/-- Lower-casing is idempotent on code points. -/
theorem lowCh_lowCh (n : Nat) : lowCh (lowCh n) = lowCh n := by
  unfold lowCh
  split_ifs <;> omega

/-- Upper-casing a lower-cased code point gives its upper case. -/
theorem upCh_lowCh (n : Nat) : upCh (lowCh n) = upCh n := by
  unfold upCh lowCh
  split_ifs <;> omega

/-- Upper-casing is idempotent on code points. -/
theorem upCh_upCh (n : Nat) : upCh (upCh n) = upCh n := by
  unfold upCh
  split_ifs <;> omega

/-- Lower-casing preserves the letter test. -/
theorem alphaCh_lowCh (n : Nat) : alphaCh (lowCh n) = alphaCh n := by
  unfold alphaCh lowCh
  split_ifs with h
  · rw [Bool.eq_iff_iff]
    simp only [Bool.or_eq_true, Bool.and_eq_true, decide_eq_true_eq]
    omega
  · rfl

/-- Upper-casing preserves the letter test. -/
theorem alphaCh_upCh (n : Nat) : alphaCh (upCh n) = alphaCh n := by
  unfold alphaCh upCh
  split_ifs with h
  · rw [Bool.eq_iff_iff]
    simp only [Bool.or_eq_true, Bool.and_eq_true, decide_eq_true_eq]
    omega
  · rfl

/-- A non-letter code point is untouched by lower-casing. -/
theorem lowCh_of_not_alpha {n : Nat} (h : alphaCh n = false) : lowCh n = n := by
  unfold alphaCh at h
  unfold lowCh
  simp only [Bool.or_eq_false_iff, Bool.and_eq_false_iff,
    decide_eq_false_iff_not] at h
  split_ifs with hif
  · omega
  · rfl

/-- Lower-casing after title-casing equals plain lower-casing. -/
theorem lower_titleAux (b : Bool) (s : PyStr) :
    pyLower (titleAux b s) = pyLower s := by
  induction s generalizing b with
  | nil => rfl
  | cons c cs ih =>
      have hhead : lowCh (if alphaCh c then (if b then lowCh c else upCh c) else c)
          = lowCh c := by
        by_cases ha : alphaCh c
        · by_cases hb : b
          · simp [ha, hb, lowCh_lowCh]
          · simp [ha, hb, lowCh_upCh]
        · simp [ha]
      show lowCh (if alphaCh c then (if b then lowCh c else upCh c) else c)
          :: pyLower (titleAux (alphaCh c) cs) = lowCh c :: pyLower cs
      rw [hhead, ih (alphaCh c)]

/-- Title-casing ignores prior lower-casing. -/
theorem titleAux_lower (b : Bool) (s : PyStr) :
    titleAux b (pyLower s) = titleAux b s := by
  induction s generalizing b with
  | nil => rfl
  | cons c cs ih =>
      show titleAux b (lowCh c :: pyLower cs)
          = (if alphaCh c then (if b then lowCh c else upCh c) else c)
            :: titleAux (alphaCh c) cs
      show (if alphaCh (lowCh c) then (if b then lowCh (lowCh c) else upCh (lowCh c))
            else lowCh c) :: titleAux (alphaCh (lowCh c)) (pyLower cs) = _
      rw [alphaCh_lowCh, lowCh_lowCh, upCh_lowCh, ih (alphaCh c)]
      by_cases ha : alphaCh c
      · simp [ha]
      · simp only [ha, Bool.false_eq_true, if_false]
        rw [lowCh_of_not_alpha (Bool.not_eq_true _ |>.mp ha)]

/-- Title-casing is idempotent. -/
theorem titleAux_titleAux (b : Bool) (s : PyStr) :
    titleAux b (titleAux b s) = titleAux b s := by
  induction s generalizing b with
  | nil => rfl
  | cons c cs ih =>
      set c' := if alphaCh c then (if b then lowCh c else upCh c) else c with hc'
      show (if alphaCh c' then (if b then lowCh c' else upCh c') else c')
          :: titleAux (alphaCh c') (titleAux (alphaCh c) cs)
        = c' :: titleAux (alphaCh c) cs
      have hac : alphaCh c' = alphaCh c := by
        rw [hc']
        by_cases ha : alphaCh c
        · by_cases hb : b
          · simp [ha, hb, alphaCh_lowCh]
          · simp [ha, hb, alphaCh_upCh]
        · simp [ha]
      have hhead : (if alphaCh c' then (if b then lowCh c' else upCh c') else c')
          = c' := by
        by_cases ha : alphaCh c
        · by_cases hb : b
          · rw [hc']
            simp [ha, hb, alphaCh_lowCh, lowCh_lowCh]
          · rw [hc']
            simp [ha, hb, alphaCh_upCh, upCh_upCh]
        · rw [hc']
          simp [ha]
      rw [hhead, hac, ih (alphaCh c)]

/-- Lower-casing after `pyTitle` equals plain lower-casing. -/
theorem lower_title (s : PyStr) : pyLower (pyTitle s) = pyLower s :=
  lower_titleAux false s

/-- `pyTitle` ignores prior lower-casing. -/
theorem title_lower (s : PyStr) : pyTitle (pyLower s) = pyTitle s :=
  titleAux_lower false s

/-- `pyTitle` is idempotent. -/
theorem title_title (s : PyStr) : pyTitle (pyTitle s) = pyTitle s :=
  titleAux_titleAux false s

/-- A title-cased string is determined by its lower-casing. -/
theorem title_of_lower_of_title (p : PyStr) :
    pyTitle (pyLower (pyTitle p)) = pyTitle p := by
  rw [lower_title, title_lower]

/-- Members of the first-seen dedup are members of the list. -/
theorem firstSeen_subset : ∀ (l : List PyStr), ∀ a ∈ firstSeen l, a ∈ l := by
  intro l
  induction l using firstSeen.induct with
  | case1 =>
      intro a ha
      simp [firstSeen] at ha
  | case2 x xs ih =>
      intro a ha
      rw [firstSeen] at ha
      rcases List.mem_cons.mp ha with rfl | ha
      · exact List.mem_cons_self _ _
      · exact List.mem_cons_of_mem _ (List.mem_of_mem_filter (ih a ha))

/-- The first-seen dedup has no duplicates. -/
theorem firstSeen_nodup : ∀ (l : List PyStr), (firstSeen l).Nodup := by
  intro l
  induction l using firstSeen.induct with
  | case1 => simp [firstSeen]
  | case2 x xs ih =>
      rw [firstSeen]
      refine List.nodup_cons.mpr ⟨?_, ih⟩
      intro hx
      have hmem := firstSeen_subset _ _ hx
      have h2 := List.of_mem_filter hmem
      simp at h2

/-- The accumulator form of the source's dedup loop: starting from `acc`,
the fold appends the first occurrences of the elements not yet in `acc`. -/
theorem pyDedup_go (l : List PyStr) : ∀ acc : List PyStr,
    l.foldl (fun out s => if s ∈ out then out else out ++ [s]) acc =
      acc ++ firstSeen (l.filter fun y => y ∉ acc) := by
  induction l with
  | nil =>
      intro acc
      simp [firstSeen]
  | cons x xs ih =>
      intro acc
      by_cases hx : x ∈ acc
      · simp only [List.foldl_cons, if_pos hx]
        rw [ih acc]
        simp [List.filter_cons, hx]
      · simp only [List.foldl_cons, if_neg hx]
        rw [ih (acc ++ [x])]
        have hfil : (xs.filter fun y => y ∉ acc ++ [x])
            = ((xs.filter fun y => y ∉ acc).filter fun y => y ≠ x) := by
          rw [List.filter_filter]
          apply List.filter_congr
          intro y _
          rw [Bool.eq_iff_iff]
          simp only [decide_eq_true_eq, Bool.and_eq_true, ne_eq, List.mem_append,
            List.mem_singleton]
          tauto
        rw [hfil]
        have hcons : ((x :: xs).filter fun y => y ∉ acc)
            = x :: (xs.filter fun y => y ∉ acc) := by
          simp [List.filter_cons, hx]
        rw [hcons, firstSeen]
        simp [List.append_assoc]

/-- The source's dedup loop computes exactly the first-seen dedup. -/
theorem pyDedup_eq_firstSeen (l : List PyStr) : pyDedup l = firstSeen l := by
  unfold pyDedup
  rw [pyDedup_go l []]
  have hfil : (l.filter fun y => y ∉ ([] : List PyStr)) = l :=
    List.filter_eq_self.mpr (by intro a _; simp)
  rw [hfil]
  simp

/-- C8: `detect_skills_simple` returns the empty list on empty text; every
returned label is title-cased (a fixed point of `pyTitle`); the output
has no duplicates even up to case (the lower-cased labels are distinct);
and on nonempty text the output is exactly the first-seen-order dedup of
the hit list, so labels appear in order of first occurrence. -/
theorem detect_skills_spec (text : PyStr) (custom_skills : List PyStr) :
    (text = [] → detect_skills_simple text custom_skills = []) ∧
    (∀ x ∈ detect_skills_simple text custom_skills, pyTitle x = x) ∧
    ((detect_skills_simple text custom_skills).map pyLower).Nodup ∧
    (text ≠ [] → detect_skills_simple text custom_skills =
      firstSeen (detectFound text custom_skills)) := by
  by_cases h : text = []
  · subst h
    refine ⟨fun _ => rfl, ?_, ?_, fun hne => absurd rfl hne⟩
    · intro x hx
      simp [detect_skills_simple] at hx
    · simp [detect_skills_simple]
  · have hout : detect_skills_simple text custom_skills
        = firstSeen (detectFound text custom_skills) := by
      unfold detect_skills_simple
      rw [if_neg h]
      exact pyDedup_eq_firstSeen _
    have hmem : ∀ x ∈ detect_skills_simple text custom_skills,
        x ∈ detectFound text custom_skills := by
      intro x hx
      rw [hout] at hx
      exact firstSeen_subset _ x hx
    have htitled : ∀ x ∈ detect_skills_simple text custom_skills, pyTitle x = x := by
      intro x hx
      obtain ⟨p, _, hp⟩ := List.mem_map.mp (hmem x hx)
      rw [← hp, title_title]
    refine ⟨fun he => absurd he h, htitled, ?_, fun _ => hout⟩
    have hnd : (detect_skills_simple text custom_skills).Nodup := by
      rw [hout]
      exact firstSeen_nodup _
    refine List.Nodup.map_on ?_ hnd
    intro x hx y hy hlow
    have hx2 := htitled x hx
    have hy2 := htitled y hy
    calc x = pyTitle x := hx2.symm
      _ = pyTitle (pyLower x) := (title_lower x).symm
      _ = pyTitle (pyLower y) := by rw [hlow]
      _ = pyTitle y := title_lower y
      _ = y := hy2

/-- Witness for C8 at the empty text. -/
theorem detect_skills_spec_witness :
    detect_skills_simple [] [pyEnc "sql"] = [] :=
  (detect_skills_spec [] [pyEnc "sql"]).1 rfl

/-- A non-newline head does not affect the triple-newline test. -/
theorem hasTriple_cons_ne {c : Nat} (hc : c ≠ 10) (l : PyStr) :
    hasTriple (c :: l) = hasTriple l := by
  cases l with
  | nil => rfl
  | cons b t =>
      cases t with
      | nil => rfl
      | cons d r => simp [hasTriple, hc]

/-- Dropping the head preserves absence of a newline triple. -/
theorem hasTriple_cons_false {c : Nat} {l : PyStr}
    (h : hasTriple (c :: l) = false) : hasTriple l = false := by
  cases l with
  | nil => rfl
  | cons b t =>
      cases t with
      | nil => rfl
      | cons d r =>
          simp only [hasTriple, Bool.or_eq_false_iff] at h
          exact h.2

/-- A suffix of a triple-free text is triple-free. -/
theorem hasTriple_append_right_false {a t : PyStr}
    (h : hasTriple (a ++ t) = false) : hasTriple t = false := by
  induction a with
  | nil => exact h
  | cons c cs ih =>
      exact ih (hasTriple_cons_false (l := cs ++ t) h)

/-- A prefix of a triple-free text is triple-free. -/
theorem hasTriple_append_left_false :
    ∀ (t b : PyStr), hasTriple (t ++ b) = false → hasTriple t = false
  | [], _, _ => rfl
  | [_], _, _ => rfl
  | [_, _], _, _ => rfl
  | a :: a2 :: a3 :: r, b, h => by
      simp only [List.cons_append, hasTriple, Bool.or_eq_false_iff] at h ⊢
      exact ⟨h.1, hasTriple_append_left_false (a2 :: a3 :: r) b h.2⟩

/-- Three or more leading newlines always form a triple. -/
theorem hasTriple_replicate3 {n : Nat} (h : 3 ≤ n) (l : PyStr) :
    hasTriple (List.replicate n 10 ++ l) = true := by
  obtain ⟨m, rfl⟩ : ∃ m, n = m + 3 := ⟨n - 3, by omega⟩
  simp [List.replicate_succ, hasTriple]

/-- Padding a triple-free text headed by a non-newline with at most two
newlines keeps it triple-free. -/
theorem hasTriple_pad {c : Nat} {l : PyStr} (hc : c ≠ 10)
    (hl : hasTriple (c :: l) = false) :
    ∀ k, k ≤ 2 → hasTriple (List.replicate k 10 ++ c :: l) = false := by
  intro k hk
  interval_cases k
  · simpa using hl
  · cases l with
    | nil => rfl
    | cons d r =>
        simp only [List.replicate, List.cons_append, List.nil_append, hasTriple,
          Bool.or_eq_false_iff]
        refine ⟨by simp [hc], ?_⟩
        exact hl
  · cases l with
    | nil => simp [List.replicate, hasTriple, hc]
    | cons d r =>
        simp only [List.replicate, List.cons_append, List.nil_append, hasTriple,
          Bool.or_eq_false_iff]
        exact ⟨by simp [hc], by simp [hc], hl⟩

/-- A newline-position-preserving character map preserves the
triple-newline test. -/
theorem hasTriple_map (f : Nat → Nat) (hf : ∀ c, (f c = 10) ↔ (c = 10)) :
    ∀ l : PyStr, hasTriple (l.map f) = hasTriple l
  | [] => rfl
  | [_] => rfl
  | [_, _] => rfl
  | a :: b :: c :: r => by
      have hb : ∀ x, (f x == 10) = (x == 10) := by
        intro x
        rw [Bool.eq_iff_iff]
        simp [hf]
      have hrec := hasTriple_map f hf (b :: c :: r)
      simp only [List.map_cons] at hrec
      simp only [List.map_cons, hasTriple]
      rw [hrec, hb a, hb b, hb c]

/-- Characters of a collapsed text are newlines or original characters. -/
theorem mem_collapseNLAux : ∀ (l : PyStr) (n : Nat), ∀ x ∈ collapseNLAux l n,
    x = 10 ∨ x ∈ l := by
  intro l
  induction l with
  | nil =>
      intro n x hx
      unfold collapseNLAux emitNL at hx
      left
      exact List.eq_of_mem_replicate hx
  | cons c cs ih =>
      intro n x hx
      unfold collapseNLAux at hx
      by_cases hc : c = 10
      · rw [if_pos hc] at hx
        rcases ih (n + 1) x hx with h10 | hmem
        · exact Or.inl h10
        · exact Or.inr (List.mem_cons_of_mem _ hmem)
      · rw [if_neg hc] at hx
        rcases List.mem_append.mp hx with hemit | hrest
        · left
          exact List.eq_of_mem_replicate hemit
        · rcases List.mem_cons.mp hrest with rfl | htail
          · exact Or.inr (List.mem_cons_self _ _)
          · rcases ih 0 x htail with h10 | hmem
            · exact Or.inl h10
            · exact Or.inr (List.mem_cons_of_mem _ hmem)

/-- A replaced character is the replacement or an original character. -/
theorem mem_replaceCh {a b x : Nat} {l : PyStr} (hx : x ∈ replaceCh a b l) :
    x = b ∨ x ∈ l := by
  obtain ⟨c, hc, hcx⟩ := List.mem_map.mp hx
  by_cases h : c = a
  · rw [if_pos h] at hcx
    exact Or.inl hcx.symm
  · rw [if_neg h] at hcx
    exact Or.inr (hcx ▸ hc)

/-- After replacing `a` by a different `b`, no `a` remains. -/
theorem not_mem_replaceCh {a b : Nat} (hba : b ≠ a) (l : PyStr) :
    a ∉ replaceCh a b l := by
  intro hmem
  obtain ⟨c, _, hcx⟩ := List.mem_map.mp hmem
  by_cases h : c = a
  · rw [if_pos h] at hcx
    exact hba hcx
  · rw [if_neg h] at hcx
    exact h (hcx ▸ rfl)

/-- Characters kept by `pyStrip` come from the input. -/
theorem mem_pyStrip {x : Nat} {l : PyStr} (hx : x ∈ pyStrip l) : x ∈ l := by
  unfold pyStrip List.rdropWhile at hx
  rw [List.mem_reverse] at hx
  have h1 := (List.dropWhile_suffix spaceCh).subset hx
  rw [List.mem_reverse] at h1
  exact (List.dropWhile_suffix spaceCh).subset h1

/-- Replacement of an absent character is the identity. -/
theorem replaceCh_eq_self {a : Nat} (b : Nat) {l : PyStr} (h : a ∉ l) :
    replaceCh a b l = l := by
  unfold replaceCh
  rw [show l.map (fun c => if c = a then b else c) = l.map id from ?_, List.map_id]
  apply List.map_congr_left
  intro x hx
  have hxa : x ≠ a := fun he => h (he ▸ hx)
  rw [if_neg hxa]
  rfl

/-- The collapsed text never contains three consecutive newlines. -/
theorem collapseNLAux_noTriple : ∀ (l : PyStr) (n : Nat),
    hasTriple (collapseNLAux l n) = false := by
  intro l
  induction l with
  | nil =>
      intro n
      unfold collapseNLAux emitNL
      by_cases h3 : 3 ≤ n
      · rw [if_pos h3]
        rfl
      · rw [if_neg h3]
        interval_cases n <;> rfl
  | cons c cs ih =>
      intro n
      unfold collapseNLAux
      by_cases hc : c = 10
      · rw [if_pos hc]
        exact ih (n + 1)
      · rw [if_neg hc]
        unfold emitNL
        refine hasTriple_pad hc ?_ _ ?_
        · rw [hasTriple_cons_ne hc]
          exact ih 0
        · split_ifs <;> omega

/-- The collapsed text never contains three consecutive newlines. -/
theorem collapseNL_noTriple (l : PyStr) : hasTriple (collapseNL l) = false :=
  collapseNLAux_noTriple l 0

/-- On a text whose pending-run prefix stays triple-free, the collapsing
walk is the identity. -/
theorem collapseNLAux_eq_self : ∀ (l : PyStr) (n : Nat),
    hasTriple (List.replicate n 10 ++ l) = false →
    collapseNLAux l n = List.replicate n 10 ++ l := by
  intro l
  induction l with
  | nil =>
      intro n h
      unfold collapseNLAux emitNL
      have hn : ¬ 3 ≤ n := by
        intro h3
        rw [hasTriple_replicate3 h3] at h
        cases h
      rw [if_neg hn]
      simp
  | cons c cs ih =>
      intro n h
      unfold collapseNLAux
      by_cases hc : c = 10
      · subst hc
        rw [if_pos rfl]
        have heq : List.replicate n 10 ++ 10 :: cs = List.replicate (n + 1) 10 ++ cs := by
          rw [List.replicate_succ']
          simp
        rw [ih (n + 1) (by rw [← heq]; exact h), ← heq]
      · rw [if_neg hc]
        have hn : ¬ 3 ≤ n := by
          intro h3
          rw [hasTriple_replicate3 h3] at h
          cases h
        have hcs : hasTriple cs = false :=
          hasTriple_cons_false (hasTriple_append_right_false h)
        unfold emitNL
        rw [if_neg hn, ih 0 (by simp only [List.replicate_zero, List.nil_append]; exact hcs)]
        simp

/-- Collapsing a triple-free text is the identity. -/
theorem collapseNL_eq_self {l : PyStr} (h : hasTriple l = false) :
    collapseNL l = l := by
  unfold collapseNL
  have h2 := collapseNLAux_eq_self l 0
    (by simp only [List.replicate_zero, List.nil_append]; exact h)
  simpa using h2

/-- The leading whitespace drop is the identity on a stripped text. -/
theorem dropWhile_rdrop (u : PyStr) :
    List.dropWhile spaceCh (List.rdropWhile spaceCh (List.dropWhile spaceCh u)) =
      List.rdropWhile spaceCh (List.dropWhile spaceCh u) := by
  rcases hrd : List.rdropWhile spaceCh (List.dropWhile spaceCh u) with _ | ⟨c, cs⟩
  · rfl
  · obtain ⟨r, hr⟩ := List.rdropWhile_prefix spaceCh (List.dropWhile spaceCh u)
    rw [hrd] at hr
    have hne : List.dropWhile spaceCh u ≠ [] := by
      rw [← hr]
      simp
    have hhead := List.head_dropWhile_not spaceCh u hne
    have hceq : (List.dropWhile spaceCh u).head hne = c := by
      have hx : List.dropWhile spaceCh u = c :: (cs ++ r) := by
        rw [← hr]
        rfl
      simp [hx]
    rw [hceq] at hhead
    have hneg : ¬ spaceCh c := by simp [hhead]
    rw [List.dropWhile_cons_of_neg hneg]

/-- Stripping is idempotent. -/
theorem pyStrip_idem (u : PyStr) : pyStrip (pyStrip u) = pyStrip u := by
  unfold pyStrip
  rw [dropWhile_rdrop u, List.rdropWhile_idempotent]

/-- Stripping preserves absence of a newline triple. -/
theorem pyStrip_noTriple {l : PyStr} (h : hasTriple l = false) :
    hasTriple (pyStrip l) = false := by
  unfold pyStrip
  have h1 : hasTriple (List.dropWhile spaceCh l) = false := by
    refine hasTriple_append_right_false (a := List.takeWhile spaceCh l) ?_
    rw [List.takeWhile_append_dropWhile]
    exact h
  obtain ⟨r, hr⟩ := List.rdropWhile_prefix spaceCh (List.dropWhile spaceCh l)
  refine hasTriple_append_left_false _ r ?_
  rw [hr]
  exact h1

/-- Expansion of `clean_text` on nonempty input. -/
theorem clean_text_expand {v : PyStr} (hv : v ≠ []) :
    clean_text v = pyStrip (replaceCh 160 32 (collapseNL (replaceCh 13 10 v))) := by
  unfold clean_text
  rw [if_neg hv]

/-- C9: the text normalizer is idempotent:
`clean_text (clean_text s) = clean_text s` for every input. -/
theorem clean_text_idem (s : PyStr) : clean_text (clean_text s) = clean_text s := by
  by_cases h0 : s = []
  · subst h0
    rfl
  · by_cases hte : clean_text s = []
    · rw [hte]
      rfl
    · have htt : clean_text s
          = pyStrip (replaceCh 160 32 (collapseNL (replaceCh 13 10 s))) :=
        clean_text_expand h0
      have h13 : (13 : Nat) ∉ clean_text s := by
        rw [htt]
        intro hmem
        have h1 := mem_pyStrip hmem
        rcases mem_replaceCh h1 with h32 | h2
        · omega
        · rcases mem_collapseNLAux (replaceCh 13 10 s) 0 13 h2 with h10 | h3
          · omega
          · exact not_mem_replaceCh (by omega) s h3
      have h160 : (160 : Nat) ∉ clean_text s := by
        rw [htt]
        intro hmem
        exact not_mem_replaceCh (by omega) (collapseNL (replaceCh 13 10 s))
          (mem_pyStrip hmem)
      have htrip : hasTriple (clean_text s) = false := by
        rw [htt]
        apply pyStrip_noTriple
        have hf : ∀ c : Nat, ((if c = 160 then 32 else c) = 10) ↔ (c = 10) := by
          intro c
          by_cases hc : c = 160
          · rw [if_pos hc]
            omega
          · rw [if_neg hc]
        have hm := hasTriple_map (fun c => if c = 160 then 32 else c) hf
          (collapseNL (replaceCh 13 10 s))
        have : replaceCh 160 32 (collapseNL (replaceCh 13 10 s))
            = (collapseNL (replaceCh 13 10 s)).map
                (fun c => if c = 160 then 32 else c) := rfl
        rw [this, hm]
        exact collapseNL_noTriple _
      have hstrip : pyStrip (clean_text s) = clean_text s := by
        rw [htt]
        exact pyStrip_idem _
      rw [clean_text_expand hte, replaceCh_eq_self 10 h13,
        collapseNL_eq_self htrip, replaceCh_eq_self 32 h160, hstrip]

/-- Every string starts with itself (padding allowed). -/
theorem startsWithL_append (s y : PyStr) : startsWithL s (s ++ y) = true := by
  induction s with
  | nil => rfl
  | cons a as ih => simp [startsWithL, ih]

/-- Every string contains the empty needle. -/
theorem pyContains_nil_needle : ∀ hay : PyStr, pyContains hay [] = true
  | [] => rfl
  | _ :: _ => by simp [pyContains, startsWithL]

/-- A string contains any of its infixes. -/
theorem pyContains_append (x s y : PyStr) : pyContains (x ++ s ++ y) s = true := by
  induction x with
  | nil =>
      cases s with
      | nil => simpa using pyContains_nil_needle y
      | cons a as =>
          have hsw := startsWithL_append (a :: as) y
          simp only [List.nil_append, List.cons_append] at hsw ⊢
          simp [pyContains, hsw]
  | cons c xs ih =>
      simp only [List.cons_append, pyContains]
      simp only [List.append_assoc] at ih
      simp [ih]

set_option maxRecDepth 40000 in
set_option maxHeartbeats 2000000 in
/-- C10 counterexample: for the supplied but unknown domain "Quantum" the
missing-skill list is empty, so "one suggestion per missing skill" would
produce no suggestions, yet the code falls into the no-requirements
branch and emits the single generic metrics suggestion. -/
theorem improvements_cex :
    generate_improvements [] [pyEnc "Skill Highlighting"] (some "Quantum")
      = [(pyEnc "Skill Highlighting", [genericSkillSuggestion])] ∧
    improveMissing [] (some "Quantum") = [] := by
  decide

/-- C10 (amended): whenever the selection is empty or includes the
"Skill Highlighting" area (after stripping), the output carries a
"Skill Highlighting" entry; if the requirement list of the supplied
domain is nonempty, the entry is one suggestion per missing skill, at
most the first 8 missing skills in catalog order, each suggestion
containing that skill's name; if the requirement list is empty (no
domain, empty domain name, or a domain outside the catalog), the entry
is the single generic metrics-quantification suggestion. -/
theorem improvements_amended (text : PyStr) (sel : List PyStr)
    (domain : Option String)
    (h : sel = [] ∨ pyEnc "Skill Highlighting" ∈ sel.map pyStrip) :
    ∃ v, (generate_improvements text sel domain).lookup (pyEnc "Skill Highlighting")
        = some v ∧
      (improveReq domain ≠ [] →
        v = ((improveMissing text domain).take 8).map skillSuggestion ∧
        v.length = min (improveMissing text domain).length 8 ∧
        ∀ e ∈ v, ∃ sk ∈ (improveMissing text domain).take 8, pyContains e sk = true) ∧
      (improveReq domain = [] → v = [genericSkillSuggestion]) := by
  have hcond : (decide (sel.map pyStrip = []) ||
      (sel.map pyStrip).contains (pyEnc "Skill Highlighting")) = true := by
    rcases h with h | h
    · simp [h]
    · simp [h]
  by_cases hreq : improveReq domain = []
  · refine ⟨[genericSkillSuggestion], ?_, fun hne => absurd hreq hne, fun _ => rfl⟩
    simp only [generate_improvements]
    rw [if_pos hcond, if_neg (fun hk => hk hreq)]
    simp only [List.singleton_append, List.cons_append, List.append_assoc]
    rw [List.lookup_cons_self]
  · refine ⟨((improveMissing text domain).take 8).map skillSuggestion, ?_,
      fun _ => ⟨rfl, ?_, ?_⟩, fun he => absurd he hreq⟩
    · simp only [generate_improvements]
      rw [if_pos hcond, if_pos hreq]
      simp only [List.singleton_append, List.cons_append, List.append_assoc]
      rw [List.lookup_cons_self]
    · simp [List.length_take, Nat.min_comm]
    · intro e he
      obtain ⟨sk, hsk, hske⟩ := List.mem_map.mp he
      refine ⟨sk, hsk, ?_⟩
      rw [← hske]
      exact pyContains_append (pyEnc "Show a short bullet linking a project to ") sk
        (pyEnc " and a measurable outcome.")

/-- Witness for C10 (amended) with no selection and no domain. -/
theorem improvements_amended_witness :
    (generate_improvements [] [] none).lookup (pyEnc "Skill Highlighting")
      = some [genericSkillSuggestion] := by
  obtain ⟨v, hv, _, hgen⟩ := improvements_amended [] [] none (Or.inl rfl)
  rw [hv, hgen rfl]
